import Mathlib

/-!
Shallow embedding of `src/pygama/io/orca_helper.py` (ORCA file format
helpers) and proofs about it.

Byte streams are `List Nat` (each element a byte value).  File reads are
modelled by `List.take`/`List.drop` on the remaining stream, with the
Python `file.read` convention that a negative size reads to EOF and a
short read returns fewer bytes without raising.  Python exceptions are
modelled by `Except PyErr`.
-/

/-- Python exceptions raised (or re-raised) by the code under study. -/
inductive PyErr where
  | exception : String → PyErr
  | valueError : String → PyErr
  | keyError : String → PyErr
  | indexError : PyErr
deriving DecidableEq, Repr

/-- Host byte order, the value of Python's `sys.byteorder`.  It is a
property of the machine the code runs on, not an argument of any function
in `orca_helper.py`. -/
inductive ByteOrder where
  | little
  | big
deriving DecidableEq, Repr

/-- Line 56: `big_endian = False if sys.byteorder == "little" else True`. -/
def big_endian_of (bo : ByteOrder) : Bool :=
  match bo with
  | .little => false
  | .big => true

/-- Lines 73-85, `from_bytes(data, big_endian=False)`: reverse the bytes
when big-endian, then sum `byte << (offset * 8)` over `enumerate(data)`. -/
def from_bytes (data : List Nat) (big_endian : Bool) : Nat :=
  let d := if big_endian then data.reverse else data
  d.enum.foldl (fun num ob => num + (ob.2 <<< (ob.1 * 8))) 0

/-- Lines 46-58 of `parse_header`: read the first 8 bytes `ba`, then decode
`i = from_bytes(ba[:4], big_endian)` and `j = from_bytes(ba[4:], big_endian)`
with `big_endian` computed from the host's `sys.byteorder` (line 56).
The subsequent plist decoding of the header blob (external `plistlib`) is
not part of the word-decoding modelled here. -/
def parse_header_words (bo : ByteOrder) (xmlfile : List Nat) : Nat × Nat :=
  let ba := xmlfile.take 8
  let big_endian := big_endian_of bo
  (from_bytes (ba.take 4) big_endian, from_bytes (ba.drop 4) big_endian)

/-- Interpretation of 4 consecutive bytes as one `numpy.uint32` in the
host's native byte order, as `np.fromstring(..., dtype=np.uint32)` does on
line 184 (native dtype: least-significant byte first on a little-endian
host, most-significant first on a big-endian host). -/
def np_word_uint32 (bo : ByteOrder) (b : List Nat) : Nat :=
  match bo with
  | .little => b.foldr (fun byte acc => acc * 256 + byte) 0
  | .big => b.foldl (fun acc byte => acc * 256 + byte) 0

/-- Split a byte list into consecutive 4-byte groups (the element layout of
a `uint32` numpy array).  A trailing group of fewer than 4 bytes is only
reachable when the length is not a multiple of 4, in which case
`np_fromstring_uint32` errors before using the groups. -/
def chunks4 : List Nat → List (List Nat)
  | [] => []
  | a :: b :: c :: d :: rest => [a, b, c, d] :: chunks4 rest
  | l => [l]

/-- Line 184, `np.fromstring(s, dtype=np.uint32)` in binary mode: raises
`ValueError("string size must be a multiple of element size")` when the
byte count is not a multiple of 4 (numpy `PyArray_FromString`); otherwise
returns the array of native-order 32-bit words — for the empty string this
is the empty array, not an error. -/
def np_fromstring_uint32 (bo : ByteOrder) (b : List Nat) : Except PyErr (List Nat) :=
  if b.length % 4 = 0 then
    .ok ((chunks4 b).map (np_word_uint32 bo))
  else
    .error (.valueError "string size must be a multiple of element size")

/-- Python `file.read(n)` on a stream with the given remaining bytes:
a negative `n` reads to EOF (Python io semantics); otherwise up to `n`
bytes are returned, fewer at EOF, never raising.  Returns the bytes read
and the remaining stream. -/
def pyRead (stream : List Nat) (n : Int) : List Nat × List Nat :=
  if n < 0 then (stream, [])
  else (stream.take n.toNat, stream.drop n.toNat)

/-- Line 197: `record_length = int((head[0] & 0x3FFFF))`. -/
def record_length (word : Nat) : Nat := word &&& 0x3FFFF

/-- Line 198: `data_id = int((head[0] >> 18))`. -/
def data_id (word : Nat) : Nat := word >>> 18

/-- Lines 182-210, `get_next_packet(f_in)`: read 4 bytes and decode them as
a `uint32` array `head` (a failure inside this `try` is re-raised as
`Exception("Failed to read in the event orca header.")`); `head[0]` on the
empty array (empty stream) raises `IndexError` outside the `try`; extract
`record_length` and `data_id` from `head[0]`; then
`event_data = f_in.read(record_length * 4 - 4)` (a plain Python read, which
never raises here) and return `(event_data, data_id)`.  The final stream
position is returned alongside to model the file cursor. -/
def get_next_packet (bo : ByteOrder) (stream : List Nat) :
    Except PyErr ((List Nat × Nat) × List Nat) :=
  let head_bytes := stream.take 4
  let rest := stream.drop 4
  match np_fromstring_uint32 bo head_bytes with
  | .error _ => .error (.exception "Failed to read in the event orca header.")
  | .ok head =>
    match head with
    | [] => .error .indexError
    | head0 :: _ =>
      let rl := record_length head0
      let (event_data, rest2) := pyRead rest ((rl : Int) * 4 - 4)
      .ok ((event_data, data_id head0), rest2)

theorem shiftLeft_or_eq (id length : Nat) (hl : length < 2 ^ 18) :
    (id <<< 18) ||| length = 2 ^ 18 * id + length := by
  rw [Nat.shiftLeft_eq, Nat.mul_comm, ← Nat.mul_add_lt_is_or hl]

/-- C1: for every `length < 2^18` and `id < 2^14`, the reader's extraction
rules (`record_length = word & 0x3FFFF`, `data_id = word >> 18`) recover
exactly `(length, id)` from the packed word `(id << 18) | length`. -/
theorem packing_roundtrip (length id : Nat) (hl : length < 2 ^ 18) (hi : id < 2 ^ 14) :
    record_length ((id <<< 18) ||| length) = length ∧
      data_id ((id <<< 18) ||| length) = id := by
  have hp : (2 : Nat) ^ 18 = 262144 := by norm_num
  have h1 : (id <<< 18) ||| length = 2 ^ 18 * id + length := shiftLeft_or_eq id length hl
  constructor
  · show ((id <<< 18) ||| length) &&& 0x3FFFF = length
    have h2 : (0x3FFFF : Nat) = 2 ^ 18 - 1 := by norm_num
    rw [h1, h2, Nat.and_pow_two_sub_one_eq_mod, hp]
    rw [hp] at hl
    omega
  · show ((id <<< 18) ||| length) >>> 18 = id
    rw [h1, Nat.shiftRight_eq_div_pow, hp]
    rw [hp] at hl
    omega

/-- Witness for C1 at `length = 7`, `id = 3`. -/
theorem packing_roundtrip_witness :
    ((7 : Nat) < 2 ^ 18 ∧ (3 : Nat) < 2 ^ 14) ∧
      (record_length ((3 <<< 18) ||| 7) = 7 ∧ data_id ((3 <<< 18) ||| 7) = 3) :=
  ⟨by decide, packing_roundtrip 7 3 (by decide) (by decide)⟩

theorem chunks4_length_four (l : List Nat) (h : l.length = 4) : chunks4 l = [l] := by
  rcases l with _ | ⟨a, _ | ⟨b, _ | ⟨c, _ | ⟨d, _ | ⟨e, t⟩⟩⟩⟩⟩
  · exact absurd h (by simp)
  · exact absurd h (by simp)
  · exact absurd h (by simp)
  · exact absurd h (by simp)
  · rfl
  · exfalso; simp at h

theorem pyRead_nonneg (rest : List Nat) (rl : Nat) (h : 1 ≤ rl) :
    pyRead rest ((rl : Int) * 4 - 4) =
      (rest.take ((rl - 1) * 4), rest.drop ((rl - 1) * 4)) := by
  have h0 : ¬ ((rl : Int) * 4 - 4 < 0) := by omega
  have h1 : ((rl : Int) * 4 - 4).toNat = (rl - 1) * 4 := by omega
  simp only [pyRead, if_neg h0, h1]

theorem get_next_packet_append (bo : ByteOrder) (hb rest : List Nat)
    (h4 : hb.length = 4) :
    get_next_packet bo (hb ++ rest) =
      .ok (((pyRead rest ((record_length (np_word_uint32 bo hb) : Int) * 4 - 4)).1,
            data_id (np_word_uint32 bo hb)),
          (pyRead rest ((record_length (np_word_uint32 bo hb) : Int) * 4 - 4)).2) := by
  have hmod : hb.length % 4 = 0 := by rw [h4]
  simp only [get_next_packet, np_fromstring_uint32, List.take_left' h4, List.drop_left' h4,
    hmod, if_pos, chunks4_length_four hb h4, List.map]

/-- C2: when the next leading word encodes `record_length = n ≥ 1` and at
least `(n - 1) * 4` bytes follow it, `get_next_packet` returns a packet
whose payload is exactly the `(n - 1) * 4` bytes immediately after the
leading word, together with the word's decoded `data_id`. -/
theorem get_next_packet_payload (bo : ByteOrder) (hb rest : List Nat)
    (h4 : hb.length = 4)
    (hn : 1 ≤ record_length (np_word_uint32 bo hb))
    (hr : (record_length (np_word_uint32 bo hb) - 1) * 4 ≤ rest.length) :
    get_next_packet bo (hb ++ rest) =
      .ok ((rest.take ((record_length (np_word_uint32 bo hb) - 1) * 4),
            data_id (np_word_uint32 bo hb)),
          rest.drop ((record_length (np_word_uint32 bo hb) - 1) * 4)) ∧
    (rest.take ((record_length (np_word_uint32 bo hb) - 1) * 4)).length =
      (record_length (np_word_uint32 bo hb) - 1) * 4 := by
  constructor
  · rw [get_next_packet_append bo hb rest h4, pyRead_nonneg rest _ hn]
  · rw [List.length_take]
    omega

/-- Witness for C2, the concrete scenario of the spec: leading word
`0x00040005` (`record_length = 5`, `data_id = 1`) in little-endian host
order, followed by exactly 16 payload bytes. -/
theorem get_next_packet_payload_witness :
    (([5, 0, 4, 0] : List Nat).length = 4 ∧
      1 ≤ record_length (np_word_uint32 .little [5, 0, 4, 0]) ∧
      (record_length (np_word_uint32 .little [5, 0, 4, 0]) - 1) * 4 ≤
        ([1, 2, 3, 4, 5, 6, 7, 8, 9, 10, 11, 12, 13, 14, 15, 16] : List Nat).length ∧
      record_length (np_word_uint32 .little [5, 0, 4, 0]) = 5 ∧
      data_id (np_word_uint32 .little [5, 0, 4, 0]) = 1) ∧
    (get_next_packet .little ([5, 0, 4, 0] ++ [1, 2, 3, 4, 5, 6, 7, 8, 9, 10, 11, 12, 13, 14, 15, 16]) =
      .ok ((([1, 2, 3, 4, 5, 6, 7, 8, 9, 10, 11, 12, 13, 14, 15, 16] : List Nat).take
              ((record_length (np_word_uint32 .little [5, 0, 4, 0]) - 1) * 4),
            data_id (np_word_uint32 .little [5, 0, 4, 0])),
          ([1, 2, 3, 4, 5, 6, 7, 8, 9, 10, 11, 12, 13, 14, 15, 16] : List Nat).drop
              ((record_length (np_word_uint32 .little [5, 0, 4, 0]) - 1) * 4)) ∧
      (([1, 2, 3, 4, 5, 6, 7, 8, 9, 10, 11, 12, 13, 14, 15, 16] : List Nat).take
          ((record_length (np_word_uint32 .little [5, 0, 4, 0]) - 1) * 4)).length =
        (record_length (np_word_uint32 .little [5, 0, 4, 0]) - 1) * 4) :=
  ⟨by decide,
    get_next_packet_payload .little [5, 0, 4, 0]
      [1, 2, 3, 4, 5, 6, 7, 8, 9, 10, 11, 12, 13, 14, 15, 16]
      (by decide) (by decide) (by decide)⟩

/-- C10: a leading word with `record_length = 0` makes the code compute the
payload read size `0 * 4 - 4 = -4`; Python's `read(-4)` reads all remaining
bytes of the stream, so the returned packet's payload is the entire
remainder and no error is raised. -/
theorem get_next_packet_zero_record_length (bo : ByteOrder) (hb rest : List Nat)
    (h4 : hb.length = 4)
    (h0 : record_length (np_word_uint32 bo hb) = 0) :
    get_next_packet bo (hb ++ rest) =
      .ok ((rest, data_id (np_word_uint32 bo hb)), []) := by
  rw [get_next_packet_append bo hb rest h4, h0]
  rfl

/-- Witness for C10: leading word `0x00040000` (`record_length = 0`,
`data_id = 1`) on a little-endian host, followed by three bytes. -/
theorem get_next_packet_zero_record_length_witness :
    (([0, 0, 4, 0] : List Nat).length = 4 ∧
      record_length (np_word_uint32 .little [0, 0, 4, 0]) = 0) ∧
    get_next_packet .little ([0, 0, 4, 0] ++ [9, 8, 7]) =
      .ok (([9, 8, 7], data_id (np_word_uint32 .little [0, 0, 4, 0])), []) :=
  ⟨by decide,
    get_next_packet_zero_record_length .little [0, 0, 4, 0] [9, 8, 7] (by decide) (by decide)⟩

/-- Counterexample to C3: with zero bytes remaining at a packet boundary
the code raises `IndexError` (`head[0]` on the empty array produced by
`np.fromstring(b"")`), an error rather than a distinct normal-termination
outcome; and a valid little-endian leading word with `record_length = 5`
followed by only 3 of the 16 expected payload bytes produces a packet with
the truncated payload and raises no error at all. -/
theorem clean_end_conflation_cex :
    get_next_packet .little [] = .error .indexError ∧
    get_next_packet .little [5, 0, 4, 0, 1, 2, 3] = .ok (([1, 2, 3], 1), []) := by
  constructor
  · rfl
  · rfl

/-- C3 as amended: a stream with zero bytes at a packet boundary raises
`IndexError`; a stream of 1-3 bytes raises the generic
`Exception("Failed to read in the event orca header.")`; and a valid
leading word followed by fewer than `record_length * 4 - 4` payload bytes
returns a packet whose payload is just the remaining bytes, with no error.
The code therefore never produces a non-error clean-end-of-stream outcome.
-/
theorem clean_end_conflation_amended (bo : ByteOrder) (s hb rest : List Nat)
    (hs1 : 1 ≤ s.length) (hs2 : s.length ≤ 3)
    (h4 : hb.length = 4)
    (hn : 1 ≤ record_length (np_word_uint32 bo hb))
    (hshort : rest.length ≤ (record_length (np_word_uint32 bo hb) - 1) * 4) :
    get_next_packet bo [] = .error .indexError ∧
    get_next_packet bo s = .error (.exception "Failed to read in the event orca header.") ∧
    get_next_packet bo (hb ++ rest) =
      .ok ((rest, data_id (np_word_uint32 bo hb)), rest.drop ((record_length (np_word_uint32 bo hb) - 1) * 4)) := by
  refine ⟨by cases bo <;> rfl, ?_, ?_⟩
  · have hmod : ¬ s.length % 4 = 0 := by omega
    have htake : s.take 4 = s := List.take_of_length_le (by omega)
    simp only [get_next_packet, np_fromstring_uint32, htake, hmod, if_neg, if_false]
  · rw [get_next_packet_append bo hb rest h4, pyRead_nonneg rest _ hn,
      List.take_of_length_le hshort]

/-- Witness for the amended C3 at a 2-byte stream and at a leading word
with `record_length = 5` followed by a 3-byte payload. -/
theorem clean_end_conflation_amended_witness :
    (1 ≤ ([7, 7] : List Nat).length ∧ ([7, 7] : List Nat).length ≤ 3 ∧
      ([5, 0, 4, 0] : List Nat).length = 4 ∧
      1 ≤ record_length (np_word_uint32 .little [5, 0, 4, 0]) ∧
      ([1, 2, 3] : List Nat).length ≤ (record_length (np_word_uint32 .little [5, 0, 4, 0]) - 1) * 4) ∧
    (get_next_packet .little [] = .error .indexError ∧
      get_next_packet .little [7, 7] = .error (.exception "Failed to read in the event orca header.") ∧
      get_next_packet .little ([5, 0, 4, 0] ++ [1, 2, 3]) =
        .ok (([1, 2, 3], data_id (np_word_uint32 .little [5, 0, 4, 0])),
          ([1, 2, 3] : List Nat).drop ((record_length (np_word_uint32 .little [5, 0, 4, 0]) - 1) * 4))) :=
  ⟨⟨by decide, by decide, by decide, by decide, by decide⟩,
    clean_end_conflation_amended .little [7, 7] [5, 0, 4, 0] [1, 2, 3]
      (by decide) (by decide) (by decide) (by decide) (by decide)⟩

/-- Counterexample to C6: the decoded words of both `parse_header` and
`get_next_packet` change when only the host machine's byte order changes,
refuting independence from the host byte order; the code offers no
caller-selected policy — `sys.byteorder` (line 56) and the native numpy
`uint32` dtype (line 184) are its only endianness determinants. -/
theorem endianness_hardcoded_cex :
    parse_header_words .little [1, 0, 0, 0, 0, 0, 0, 0] = (1, 0) ∧
    parse_header_words .big [1, 0, 0, 0, 0, 0, 0, 0] = (16777216, 0) ∧
    get_next_packet .little [1, 0, 0, 0] = .ok (([], 0), []) ∧
    get_next_packet .big [1, 0, 0, 0] = .ok (([], 64), []) ∧
    ((1 : Nat), (0 : Nat)) ≠ (16777216, 0) ∧ (0 : Nat) ≠ 64 :=
  ⟨rfl, rfl, rfl, rfl, by decide, by decide⟩

/-- C6 as amended: the endianness is hardcoded to the host machine's
native byte order, and that single policy is shared by both components:
for every host byte order, the `uint32` word value `get_next_packet`
obtains from 4 bytes (native numpy dtype) equals the value `parse_header`
obtains via `from_bytes` with `big_endian` derived from `sys.byteorder`. -/
theorem endianness_hardcoded_amended (bo : ByteOrder) (b0 b1 b2 b3 : Nat) :
    np_word_uint32 bo [b0, b1, b2, b3] =
      from_bytes [b0, b1, b2, b3] (big_endian_of bo) := by
  cases bo
  · show (((0 * 256 + b3) * 256 + b2) * 256 + b1) * 256 + b0 =
      0 + b0 <<< (0 * 8) + b1 <<< (1 * 8) + b2 <<< (2 * 8) + b3 <<< (3 * 8)
    simp only [Nat.shiftLeft_eq]
    norm_num
    ring
  · show (((0 * 256 + b0) * 256 + b1) * 256 + b2) * 256 + b3 =
      0 + b3 <<< (0 * 8) + b2 <<< (1 * 8) + b1 <<< (2 * 8) + b0 <<< (3 * 8)
    simp only [Nat.shiftLeft_eq]
    norm_num
    ring

/-- Python dict membership test `k in d`, on an association-list model of
a dict (keys unique, insertion-ordered). -/
def hasKey {α β : Type} [DecidableEq α] (d : List (α × β)) (k : α) : Bool :=
  d.any (fun p => decide (p.1 = k))

/-- Python dict subscript `d[k]`: the value of the first (and, for a real
dict, only) entry with key `k`. -/
def dictLookup {α β : Type} [DecidableEq α] (d : List (α × β)) (k : α) : Option β :=
  (d.find? (fun p => decide (p.1 = k))).map Prod.snd

/-- Python dict assignment `d[k] = v`: overwrite in place when the key is
present (a Python dict keeps the entry's original position), append at the
end otherwise. -/
def dictInsert {α β : Type} [DecidableEq α] (d : List (α × β)) (k : α) (v : β) :
    List (α × β) :=
  if hasKey d k then d.map (fun p => if p.1 = k then (k, v) else p)
  else d ++ [(k, v)]

theorem dictLookup_map_replace {α β : Type} [DecidableEq α]
    (d : List (α × β)) (k k' : α) (v : β) (hne : k' ≠ k) :
    dictLookup (d.map (fun p => if p.1 = k then (k, v) else p)) k' = dictLookup d k' := by
  induction d with
  | nil => rfl
  | cons p rest ih =>
    simp only [List.map_cons]
    by_cases h : p.1 = k
    · rw [if_pos h]
      unfold dictLookup at ih ⊢
      rw [List.find?_cons_of_neg _ (by simp [Ne.symm hne]),
        List.find?_cons_of_neg _ (by simp [h, Ne.symm hne])]
      exact ih
    · rw [if_neg h]
      by_cases h' : p.1 = k'
      · unfold dictLookup
        rw [List.find?_cons_of_pos _ (by simp [h']), List.find?_cons_of_pos _ (by simp [h'])]
      · unfold dictLookup at ih ⊢
        rw [List.find?_cons_of_neg _ (by simp [h']), List.find?_cons_of_neg _ (by simp [h'])]
        exact ih

theorem dictLookup_map_replace_self {α β : Type} [DecidableEq α]
    (d : List (α × β)) (k : α) (v : β) (hk : hasKey d k = true) :
    dictLookup (d.map (fun p => if p.1 = k then (k, v) else p)) k = some v := by
  induction d with
  | nil => simp [hasKey] at hk
  | cons p rest ih =>
    simp only [List.map_cons]
    by_cases h : p.1 = k
    · rw [if_pos h]
      unfold dictLookup
      rw [List.find?_cons_of_pos _ (by simp)]
      rfl
    · rw [if_neg h]
      have hk' : hasKey rest k = true := by
        have hh := hk
        simp only [hasKey, List.any_cons, Bool.or_eq_true] at hh
        rcases hh with h1 | h1
        · exact absurd (of_decide_eq_true h1) h
        · exact h1
      unfold dictLookup at ih ⊢
      rw [List.find?_cons_of_neg _ (by simp [h])]
      exact ih hk'

theorem find?_eq_none_of_hasKey_false {α β : Type} [DecidableEq α]
    (d : List (α × β)) (k : α) (h : hasKey d k = false) :
    d.find? (fun p => decide (p.1 = k)) = none := by
  rw [List.find?_eq_none]
  intro x hx
  simp only [hasKey, List.any_eq_false] at h
  exact h x hx

theorem dictLookup_dictInsert {α β : Type} [DecidableEq α]
    (d : List (α × β)) (k k' : α) (v : β) :
    dictLookup (dictInsert d k v) k' = if k = k' then some v else dictLookup d k' := by
  unfold dictInsert
  by_cases hk : hasKey d k
  · rw [if_pos hk]
    by_cases he : k = k'
    · subst he
      rw [if_pos rfl]
      exact dictLookup_map_replace_self d k v hk
    · rw [if_neg he]
      exact dictLookup_map_replace d k k' v (Ne.symm he)
  · rw [if_neg hk]
    unfold dictLookup
    rw [List.find?_append]
    by_cases he : k = k'
    · subst he
      rw [find?_eq_none_of_hasKey_false d k (by simpa using hk)]
      simp
    · have hnone : List.find? (fun p => decide (p.1 = k')) [(k, v)] = none := by
        simp [he]
      rw [hnone, Option.or_none, if_neg he]

theorem hasKey_eq_isSome {α β : Type} [DecidableEq α] (d : List (α × β)) (k : α) :
    hasKey d k = (dictLookup d k).isSome := by
  unfold hasKey dictLookup
  rw [Option.isSome_map', Bool.eq_iff_iff, List.any_eq_true, List.find?_isSome]

/-- One combined fold of `dictInsert` over a list of key-value pairs,
starting from the empty dict — the shape shared by the dict-building loops
in `get_id_to_decoder_name_dict` and `flip_data_ids`. -/
def dictOfPairs {α β : Type} [DecidableEq α] (ps : List (α × β)) : List (α × β) :=
  ps.foldl (fun d p => dictInsert d p.1 p.2) []

theorem dictLookup_foldl_dictInsert {α β : Type} [DecidableEq α]
    (ps : List (α × β)) (acc : List (α × β)) (k : α) :
    dictLookup (ps.foldl (fun d p => dictInsert d p.1 p.2) acc) k =
      ((ps.reverse.find? (fun p => decide (p.1 = k))).map Prod.snd).or (dictLookup acc k) := by
  induction ps generalizing acc with
  | nil => simp
  | cons p rest ih =>
    rw [List.foldl_cons, ih, dictLookup_dictInsert, List.reverse_cons, List.find?_append]
    cases hf : rest.reverse.find? (fun p => decide (p.1 = k)) with
    | none =>
      simp only [hf, Option.map_none', Option.none_or]
      by_cases h : p.1 = k
      · simp [h]
      · simp [h]
    | some q =>
      simp only [hf, Option.map_some', Option.or_some]

theorem dictLookup_dictOfPairs {α β : Type} [DecidableEq α]
    (ps : List (α × β)) (k : α) :
    dictLookup (dictOfPairs ps) k =
      (ps.reverse.find? (fun p => decide (p.1 = k))).map Prod.snd := by
  unfold dictOfPairs
  rw [dictLookup_foldl_dictInsert]
  simp [dictLookup]

theorem hasKey_dictOfPairs {α β : Type} [DecidableEq α]
    (ps : List (α × β)) (k : α) :
    hasKey (dictOfPairs ps) k = ps.any (fun p => decide (p.1 = k)) := by
  rw [hasKey_eq_isSome, dictLookup_dictOfPairs, Option.isSome_map', Bool.eq_iff_iff,
    List.find?_isSome]
  simp [List.any_eq_true]

theorem find?_key_of_nodup {α β : Type} [DecidableEq α]
    (ps : List (α × β)) (k : α) (v : β)
    (hnd : (ps.map Prod.fst).Nodup) (hm : (k, v) ∈ ps) :
    ps.find? (fun p => decide (p.1 = k)) = some (k, v) := by
  induction ps with
  | nil => simp at hm
  | cons p rest ih =>
    rw [List.map_cons, List.nodup_cons] at hnd
    by_cases h : p.1 = k
    · rw [List.find?_cons_of_pos _ (by simp [h])]
      rcases List.mem_cons.mp hm with rfl | hmem
      · rfl
      · exact absurd (h ▸ List.mem_map_of_mem Prod.fst hmem) hnd.1
    · rw [List.find?_cons_of_neg _ (by simp [h])]
      rcases List.mem_cons.mp hm with rfl | hmem
      · exact absurd rfl h
      · exact ih hnd.2 hmem

/-- A leaf of the header's `dataDescription` tree:
`header_dict["dataDescription"][class_name][super_name]` is a dict holding
(at least) an integer `"dataId"` and a string `"decoder"`. -/
structure DataDescEntry where
  dataId : Nat
  decoder : String
deriving DecidableEq, Repr

/-- The `header_dict["dataDescription"]` subtree: an insertion-ordered
mapping from class name to an insertion-ordered mapping from instance
("super") name to its leaf entry. -/
abbrev DataDescription := List (String × List (String × DataDescEntry))

/-- Lines 132-145, `get_id_to_decoder_name_dict(header_dict)`: for every
class key and super key in order, insert
`id2dn_dict[dataId >> 18] = decoder` into an initially empty dict. -/
def get_id_to_decoder_name_dict (dd : DataDescription) : List (Nat × String) :=
  dd.foldl (fun acc cs =>
    cs.2.foldl (fun a se => dictInsert a (se.2.dataId >>> 18) se.2.decoder) acc) []

/-- The leaf entries of a `dataDescription` tree in walk order, each tagged
with its class key and super key. -/
def leaf_entries (dd : DataDescription) : List (String × String × DataDescEntry) :=
  (dd.map (fun cs => cs.2.map (fun se => (cs.1, se.1, se.2)))).flatten

/-- The decoded identifier of a leaf entry. -/
def leaf_id (l : String × String × DataDescEntry) : Nat := l.2.2.dataId >>> 18

theorem any_map_general {α β : Type} (l : List α) (f : α → β) (p : β → Bool) :
    (l.map f).any p = l.any (fun a => p (f a)) := by
  induction l with
  | nil => rfl
  | cons x xs ih => simp [List.any_cons, ih]

theorem get_id_to_decoder_name_dict_eq_dictOfPairs (dd : DataDescription) :
    get_id_to_decoder_name_dict dd =
      dictOfPairs ((leaf_entries dd).map (fun l => (leaf_id l, l.2.2.decoder))) := by
  unfold get_id_to_decoder_name_dict dictOfPairs
  suffices h : ∀ acc : List (Nat × String),
      dd.foldl (fun acc cs =>
        cs.2.foldl (fun a se => dictInsert a (se.2.dataId >>> 18) se.2.decoder) acc) acc =
      ((leaf_entries dd).map (fun l => (leaf_id l, l.2.2.decoder))).foldl
        (fun d p => dictInsert d p.1 p.2) acc by
    exact h []
  induction dd with
  | nil => intro acc; rfl
  | cons cs rest ih =>
    intro acc
    rw [List.foldl_cons]
    unfold leaf_entries
    rw [List.map_cons, List.flatten_cons, List.map_append, List.foldl_append]
    rw [ih]
    congr 1
    rw [List.map_map, List.foldl_map]
    rfl

/-- C4: the derived decoder table has exactly the decoded identifiers
`dataId >> 18` of the leaf entries of the header's `dataDescription` tree
as its keys, and — when no two leaves assign different decoder names to
the same decoded identifier — maps each leaf's decoded identifier to that
leaf's declared decoder name. -/
theorem decoder_table_exact (dd : DataDescription) (id : Nat)
    (l : String × String × DataDescEntry)
    (hcons : ∀ l1 ∈ leaf_entries dd, ∀ l2 ∈ leaf_entries dd,
        leaf_id l1 = leaf_id l2 → l1.2.2.decoder = l2.2.2.decoder)
    (hl : l ∈ leaf_entries dd) :
    hasKey (get_id_to_decoder_name_dict dd) id =
      (leaf_entries dd).any (fun e => decide (leaf_id e = id)) ∧
    dictLookup (get_id_to_decoder_name_dict dd) (leaf_id l) = some l.2.2.decoder := by
  rw [get_id_to_decoder_name_dict_eq_dictOfPairs]
  constructor
  · rw [hasKey_dictOfPairs, any_map_general]
  · rw [dictLookup_dictOfPairs]
    have hmem : (leaf_id l, l.2.2.decoder) ∈
        ((leaf_entries dd).map (fun e => (leaf_id e, e.2.2.decoder))).reverse :=
      List.mem_reverse.mpr (List.mem_map_of_mem _ hl)
    have hsome : (((leaf_entries dd).map (fun e => (leaf_id e, e.2.2.decoder))).reverse.find?
        (fun p => decide (p.1 = leaf_id l))).isSome := by
      rw [List.find?_isSome]
      exact ⟨(leaf_id l, l.2.2.decoder), hmem, by simp⟩
    obtain ⟨q, hq⟩ := Option.isSome_iff_exists.mp hsome
    have hqk : q.1 = leaf_id l := by
      have := List.find?_some hq
      simpa using this
    have hqmem : q ∈ (leaf_entries dd).map (fun e => (leaf_id e, e.2.2.decoder)) :=
      List.mem_reverse.mp (List.mem_of_find?_eq_some hq)
    obtain ⟨l', hl', hq'⟩ := List.mem_map.mp hqmem
    rw [hq, Option.map_some']
    have : q.2 = l'.2.2.decoder := by rw [← hq']
    rw [this, hcons l' hl' l hl (by rw [← hqk, ← hq'])]

/-- Concrete collision-free `dataDescription` tree used as the C4 witness
input. -/
def ddSample : DataDescription :=
  [("ORRunModel", [("Run", ⟨5 <<< 18, "ORRunDecoderForRun"⟩)]),
   ("ORSIS3302Model", [("Energy", ⟨3 <<< 18, "ORSIS3302DecoderForEnergy"⟩)])]

/-- Witness for C4 on `ddSample`, at identifier 3 and the `ORRunModel` leaf. -/
theorem decoder_table_exact_witness :
    ((∀ l1 ∈ leaf_entries ddSample, ∀ l2 ∈ leaf_entries ddSample,
        leaf_id l1 = leaf_id l2 → l1.2.2.decoder = l2.2.2.decoder) ∧
      ("ORRunModel", "Run", (⟨5 <<< 18, "ORRunDecoderForRun"⟩ : DataDescEntry)) ∈
        leaf_entries ddSample) ∧
    (hasKey (get_id_to_decoder_name_dict ddSample) 3 =
        (leaf_entries ddSample).any (fun e => decide (leaf_id e = 3)) ∧
      dictLookup (get_id_to_decoder_name_dict ddSample)
          (leaf_id ("ORRunModel", "Run", (⟨5 <<< 18, "ORRunDecoderForRun"⟩ : DataDescEntry))) =
        some ("ORRunModel", "Run",
          (⟨5 <<< 18, "ORRunDecoderForRun"⟩ : DataDescEntry)).2.2.decoder) :=
  ⟨⟨by decide, by decide⟩,
    decoder_table_exact ddSample 3
      ("ORRunModel", "Run", (⟨5 <<< 18, "ORRunDecoderForRun"⟩ : DataDescEntry))
      (by decide) (by decide)⟩

/-- Header declaration tree with two leaves colliding on decoded id 5 under
different decoder names. -/
def collisionHeader : DataDescription :=
  [("ClassA", [("s1", ⟨5 <<< 18, "N1"⟩), ("s2", ⟨5 <<< 18, "N2"⟩)])]

/-- Collision-free tree declaring only the later of the two entries. -/
def collisionFreeHeader : DataDescription :=
  [("ClassA", [("s2", ⟨5 <<< 18, "N2"⟩)])]

/-- Counterexample to C5: `collisionHeader` has two leaves with the same
decoded identifier 5 and different decoder names, yet
`get_id_to_decoder_name_dict` — whose return value is the function's only
output (it prints nothing and raises nothing) — produces a table identical
to the one from the collision-free `collisionFreeHeader`, so the collision
is silently dropped, not surfaced to the caller. -/
theorem decoder_collision_cex :
    (leaf_id ("ClassA", "s1", (⟨5 <<< 18, "N1"⟩ : DataDescEntry)) =
        leaf_id ("ClassA", "s2", (⟨5 <<< 18, "N2"⟩ : DataDescEntry)) ∧
      "N1" ≠ "N2" ∧
      ("ClassA", "s1", (⟨5 <<< 18, "N1"⟩ : DataDescEntry)) ∈ leaf_entries collisionHeader ∧
      ("ClassA", "s2", (⟨5 <<< 18, "N2"⟩ : DataDescEntry)) ∈ leaf_entries collisionHeader) ∧
    get_id_to_decoder_name_dict collisionHeader = [(5, "N2")] ∧
    get_id_to_decoder_name_dict collisionFreeHeader = [(5, "N2")] :=
  ⟨by decide, rfl, rfl⟩

/-- C5 as amended: on identifier collisions the derived decoder table keeps
the decoder name of the later colliding leaf in declaration/walk order
(last-write-wins), but the collision is silently dropped: the table is the
function's only output and retains no trace of the earlier entry. -/
theorem decoder_collision_last_wins (dd : DataDescription) (id : Nat) :
    dictLookup (get_id_to_decoder_name_dict dd) id =
      ((leaf_entries dd).reverse.find? (fun e => decide (leaf_id e = id))).map
        (fun e => e.2.2.decoder) := by
  rw [get_id_to_decoder_name_dict_eq_dictOfPairs, dictLookup_dictOfPairs,
    ← List.map_reverse, List.find?_map, Option.map_map]
  rfl

/-- Read the list object stored in heap cell `r` (empty when out of range;
all references used stay in range). -/
def cellGet (heap : List (List String)) (r : Nat) : List String := heap.getD r []

theorem cellGet_set_self (heap : List (List String)) (r : Nat) (x : List String)
    (h : r < heap.length) : cellGet (heap.set r x) r = x := by
  unfold cellGet
  rw [List.getD_eq_getElem?_getD, List.getElem?_set_self h]
  rfl

theorem cellGet_set_ne (heap : List (List String)) (r r' : Nat) (x : List String)
    (h : r' ≠ r) : cellGet (heap.set r x) r' = cellGet heap r' := by
  unfold cellGet
  rw [List.getD_eq_getElem?_getD, List.getElem?_set_ne (Ne.symm h),
    List.getD_eq_getElem?_getD]

theorem cellGet_append_left (heap : List (List String)) (c : List String) (r : Nat)
    (h : r < heap.length) : cellGet (heap ++ [c]) r = cellGet heap r := by
  unfold cellGet
  rw [List.getD_eq_getElem?_getD, List.getElem?_append_left h,
    List.getD_eq_getElem?_getD]

theorem cellGet_append_self (heap : List (List String)) (c : List String) :
    cellGet (heap ++ [c]) heap.length = c := by
  unfold cellGet
  rw [List.getD_eq_getElem?_getD, List.getElem?_append_right (Nat.le_refl _)]
  simp

/-- The pair a caller observes when reading one entry of the returned
`flipped` dict: the class name together with the current contents of the
referenced `super_keys_list` cell. -/
def cellVal (heap : List (List String)) (v : String × Nat) : String × List String :=
  (v.1, cellGet heap v.2)

/-- The contents of the `flipped` dict as observed through the heap: every
stored `[class_key, super_keys_list]` value dereferenced. -/
def readOut (heap : List (List String)) (flipped : List (Nat × String × Nat)) :
    List (Nat × String × List String) :=
  flipped.map (fun p => (p.1, cellVal heap p.2))

/-- State of the `flip_data_ids` loops.  Python lists are mutable objects,
so each `super_keys_list` lives in a heap of cells and the `flipped` dict
stores object references (cell indices), as CPython does. -/
structure FlipState where
  heap : List (List String)
  flipped : List (Nat × String × Nat)
deriving DecidableEq, Repr

/-- Inner loop of lines 117-121 for one class: for each super key in order,
`super_keys_list.append(super_key)` mutates cell `r` in place, then
`flipped[dataId >> 18] = [class_key, super_keys_list]` stores the class
name and a reference to that same cell. -/
def flip_inner (ck : String) (r : Nat) :
    List (String × DataDescEntry) → FlipState → FlipState
  | [], st => st
  | se :: rest, st =>
      flip_inner ck r rest
        ⟨st.heap.set r (cellGet st.heap r ++ [se.1]),
         dictInsert st.flipped (se.2.dataId >>> 18) (ck, r)⟩

/-- Outer loop of lines 115-121: for each class key,
`super_keys_list = []` binds a fresh empty list cell, then the inner loop
runs holding a reference to it. -/
def flip_outer : DataDescription → FlipState → FlipState
  | [], st => st
  | cs :: rest, st =>
      flip_outer rest (flip_inner cs.1 st.heap.length cs.2 ⟨st.heap ++ [[]], st.flipped⟩)

/-- Lines 107-129, `flip_data_ids(header_dict)`: run the nested loops from
an empty dict, then read every stored `[class_key, super_keys_list]` value
out through its reference — the contents the caller of the returned dict
observes once the function has returned. -/
def flip_data_ids (dd : DataDescription) : List (Nat × String × List String) :=
  let st := flip_outer dd ⟨[], []⟩
  readOut st.heap st.flipped

theorem flip_inner_heap_length (ck : String) (r : Nat)
    (S : List (String × DataDescEntry)) (st : FlipState) :
    (flip_inner ck r S st).heap.length = st.heap.length := by
  induction S generalizing st with
  | nil => rfl
  | cons se rest ih =>
    rw [flip_inner, ih]
    simp

theorem flip_inner_flipped (ck : String) (r : Nat)
    (S : List (String × DataDescEntry)) (st : FlipState) :
    (flip_inner ck r S st).flipped =
      S.foldl (fun d se => dictInsert d (se.2.dataId >>> 18) (ck, r)) st.flipped := by
  induction S generalizing st with
  | nil => rfl
  | cons se rest ih =>
    rw [flip_inner, ih, List.foldl_cons]

theorem flip_inner_heap_ne (ck : String) (r r' : Nat)
    (S : List (String × DataDescEntry)) (st : FlipState) (h : r' ≠ r) :
    cellGet (flip_inner ck r S st).heap r' = cellGet st.heap r' := by
  induction S generalizing st with
  | nil => rfl
  | cons se rest ih =>
    rw [flip_inner, ih, cellGet_set_ne _ _ _ _ h]

theorem flip_inner_heap_self (ck : String) (r : Nat)
    (S : List (String × DataDescEntry)) (st : FlipState) (h : r < st.heap.length) :
    cellGet (flip_inner ck r S st).heap r = cellGet st.heap r ++ S.map Prod.fst := by
  induction S generalizing st with
  | nil => simp [flip_inner]
  | cons se rest ih =>
    rw [flip_inner, ih _ (by simpa using h), cellGet_set_self _ _ _ h,
      List.map_cons, List.append_assoc, List.singleton_append]

theorem mem_dictInsert {α β : Type} [DecidableEq α] (d : List (α × β)) (k : α) (v : β)
    (e : α × β) (he : e ∈ dictInsert d k v) : e ∈ d ∨ e = (k, v) := by
  unfold dictInsert at he
  by_cases hk : hasKey d k
  · rw [if_pos hk] at he
    obtain ⟨p, hp, hpe⟩ := List.mem_map.mp he
    by_cases h : p.1 = k
    · right
      rw [← hpe, if_pos h]
    · left
      rw [← hpe, if_neg h]
      exact hp
  · rw [if_neg hk] at he
    rcases List.mem_append.mp he with h | h
    · exact Or.inl h
    · exact Or.inr (List.mem_singleton.mp h)

theorem mem_foldl_dictInsert {α β σ : Type} [DecidableEq α]
    (f : σ → α) (g : σ → β) (S : List σ) (acc : List (α × β)) (e : α × β)
    (he : e ∈ S.foldl (fun d s => dictInsert d (f s) (g s)) acc) :
    e ∈ acc ∨ ∃ s ∈ S, e = (f s, g s) := by
  induction S generalizing acc with
  | nil => exact Or.inl he
  | cons s rest ih =>
    rw [List.foldl_cons] at he
    rcases ih _ he with h | ⟨s', hs', he'⟩
    · rcases mem_dictInsert _ _ _ _ h with h' | h'
      · exact Or.inl h'
      · exact Or.inr ⟨s, List.mem_cons_self s rest, h'⟩
    · exact Or.inr ⟨s', List.mem_cons_of_mem s hs', he'⟩

theorem map_entry_dictInsert {α β γ : Type} [DecidableEq α] (g : β → γ)
    (d : List (α × β)) (k : α) (v : β) :
    (dictInsert d k v).map (fun p => (p.1, g p.2)) =
      dictInsert (d.map (fun p => (p.1, g p.2))) k (g v) := by
  unfold dictInsert
  have hkeys : hasKey (d.map (fun p => (p.1, g p.2))) k = hasKey d k := by
    unfold hasKey
    rw [any_map_general]
  rw [hkeys]
  by_cases hk : hasKey d k
  · rw [if_pos hk, if_pos hk, List.map_map, List.map_map]
    congr 1
    funext p
    by_cases hp : p.1 = k
    · simp [hp]
    · simp [hp]
  · rw [if_neg hk, if_neg hk, List.map_append]
    rfl

theorem readOut_dictInsert (heap : List (List String))
    (d : List (Nat × String × Nat)) (k : Nat) (v : String × Nat) :
    readOut heap (dictInsert d k v) = dictInsert (readOut heap d) k (cellVal heap v) :=
  map_entry_dictInsert (cellVal heap) d k v

theorem readOut_foldl (heap : List (List String)) (ck : String) (r : Nat)
    (S : List (String × DataDescEntry)) (F : List (Nat × String × Nat)) :
    readOut heap (S.foldl (fun d se => dictInsert d (se.2.dataId >>> 18) (ck, r)) F) =
      S.foldl (fun d se => dictInsert d (se.2.dataId >>> 18) (ck, cellGet heap r))
        (readOut heap F) := by
  induction S generalizing F with
  | nil => rfl
  | cons se rest ih =>
    rw [List.foldl_cons, List.foldl_cons, ih, readOut_dictInsert]
    rfl

theorem readOut_congr (heap heap' : List (List String))
    (F : List (Nat × String × Nat))
    (h : ∀ e ∈ F, cellGet heap e.2.2 = cellGet heap' e.2.2) :
    readOut heap F = readOut heap' F := by
  unfold readOut
  exact List.map_congr_left (fun e he => by
    unfold cellVal
    rw [h e he])

/-- The reference-free description of what `flip_data_ids` produces: every
leaf's decoded identifier mapped (with dict overwrite semantics) to its
class key paired with the complete list of that class's super keys. -/
def flip_full (dd : DataDescription) : List (Nat × String × List String) :=
  dd.foldl (fun acc cs =>
    cs.2.foldl (fun d se =>
      dictInsert d (se.2.dataId >>> 18) (cs.1, cs.2.map Prod.fst)) acc) []

theorem readOut_flip_outer (dd : DataDescription) (st : FlipState)
    (hb : ∀ e ∈ st.flipped, e.2.2 < st.heap.length) :
    readOut (flip_outer dd st).heap (flip_outer dd st).flipped =
      dd.foldl (fun acc cs =>
        cs.2.foldl (fun d se =>
          dictInsert d (se.2.dataId >>> 18) (cs.1, cs.2.map Prod.fst)) acc)
        (readOut st.heap st.flipped) := by
  induction dd generalizing st with
  | nil => rfl
  | cons cs rest ih =>
    rw [flip_outer, List.foldl_cons]
    have h1 : (flip_inner cs.1 st.heap.length cs.2
        ⟨st.heap ++ [[]], st.flipped⟩).heap.length = st.heap.length + 1 := by
      rw [flip_inner_heap_length]
      simp
    have hb2 : ∀ e ∈ (flip_inner cs.1 st.heap.length cs.2
        ⟨st.heap ++ [[]], st.flipped⟩).flipped,
        e.2.2 < (flip_inner cs.1 st.heap.length cs.2
          ⟨st.heap ++ [[]], st.flipped⟩).heap.length := by
      intro e he
      rw [flip_inner_flipped] at he
      rw [h1]
      rcases mem_foldl_dictInsert _ _ _ _ _ he with h | ⟨s', hs', he'⟩
      · exact Nat.lt_succ_of_lt (hb e h)
      · rw [he']
        exact Nat.lt_succ_self _
    rw [ih _ hb2]
    congr 1
    rw [flip_inner_flipped, readOut_foldl]
    have hcell : cellGet (flip_inner cs.1 st.heap.length cs.2
        ⟨st.heap ++ [[]], st.flipped⟩).heap st.heap.length = cs.2.map Prod.fst := by
      rw [flip_inner_heap_self _ _ _ _ (by simp)]
      show cellGet (st.heap ++ [[]]) st.heap.length ++ cs.2.map Prod.fst = cs.2.map Prod.fst
      rw [cellGet_append_self]
      rfl
    rw [hcell]
    congr 1
    apply readOut_congr
    intro e he
    rw [flip_inner_heap_ne _ _ _ _ _ (Nat.ne_of_lt (hb e he))]
    show cellGet (st.heap ++ [[]]) e.2.2 = cellGet st.heap e.2.2
    exact cellGet_append_left _ _ _ (hb e he)

theorem flip_data_ids_eq_full (dd : DataDescription) :
    flip_data_ids dd = flip_full dd := by
  unfold flip_data_ids flip_full
  exact readOut_flip_outer dd ⟨[], []⟩ (by intro e he; exact absurd he (List.not_mem_nil e))

/-- Pairs fed to the dict in `flip_full`, in walk order. -/
def flip_pairs (dd : DataDescription) : List (Nat × String × List String) :=
  (dd.map (fun cs => cs.2.map (fun se =>
    (se.2.dataId >>> 18, (cs.1, cs.2.map Prod.fst))))).flatten

theorem flip_full_eq_dictOfPairs (dd : DataDescription) :
    flip_full dd = dictOfPairs (flip_pairs dd) := by
  unfold flip_full dictOfPairs
  suffices h : ∀ acc : List (Nat × String × List String),
      dd.foldl (fun acc cs =>
        cs.2.foldl (fun d se =>
          dictInsert d (se.2.dataId >>> 18) (cs.1, cs.2.map Prod.fst)) acc) acc =
      (flip_pairs dd).foldl (fun d p => dictInsert d p.1 p.2) acc by
    exact h []
  induction dd with
  | nil => intro acc; rfl
  | cons cs rest ih =>
    intro acc
    rw [List.foldl_cons]
    unfold flip_pairs
    rw [List.map_cons, List.flatten_cons, List.foldl_append, ih]
    congr 1
    rw [List.foldl_map]

theorem flip_pairs_keys (dd : DataDescription) :
    (flip_pairs dd).map Prod.fst = (leaf_entries dd).map leaf_id := by
  induction dd with
  | nil => rfl
  | cons cs rest ih =>
    unfold flip_pairs leaf_entries
    rw [List.map_cons, List.flatten_cons, List.map_append,
      List.map_cons, List.flatten_cons, List.map_append]
    unfold flip_pairs leaf_entries at ih
    rw [ih, List.map_map, List.map_map]
    rfl

/-- Header declaring one class with two instances whose decoded ids differ;
used to exhibit the list-aliasing behaviour of `flip_data_ids`. -/
def aliasHeader : DataDescription :=
  [("ClassA", [("s1", ⟨1 <<< 18, "D1"⟩), ("s2", ⟨2 <<< 18, "D2"⟩)])]

/-- Counterexample to C7: in `aliasHeader`, identifier 1 belongs to the
first (non-final) instance `s1` of `ClassA`, so the claim requires it
to be paired with exactly `["s1"]`, a strict prefix; but the stored value
aliases the mutable `super_keys_list`, which has grown to `["s1", "s2"]`
by the time `flip_data_ids` returns. -/
theorem flip_cumulative_cex :
    flip_data_ids aliasHeader =
      [(1, "ClassA", ["s1", "s2"]), (2, "ClassA", ["s1", "s2"])] ∧
    (["s1", "s2"] : List String) ≠ ["s1"] :=
  ⟨by decide, by decide⟩

/-- C7 as amended: for every header whose leaf entries have pairwise
distinct decoded identifiers, `flip_data_ids` maps each identifier to its
owning class name paired with the complete sequence of all of that class's
instance names in declaration order — every entry of a class observes the
same final list, because all entries store references to the one
`super_keys_list` object that keeps growing after they are written. -/
theorem flip_full_list (dd : DataDescription) (ck : String)
    (S : List (String × DataDescEntry)) (se : String × DataDescEntry)
    (hnd : ((leaf_entries dd).map leaf_id).Nodup)
    (hcs : (ck, S) ∈ dd) (hse : se ∈ S) :
    dictLookup (flip_data_ids dd) (se.2.dataId >>> 18) =
      some (ck, S.map Prod.fst) := by
  rw [flip_data_ids_eq_full, flip_full_eq_dictOfPairs, dictLookup_dictOfPairs]
  have hmem : (se.2.dataId >>> 18, (ck, S.map Prod.fst)) ∈ flip_pairs dd := by
    unfold flip_pairs
    apply List.mem_flatten.mpr
    refine ⟨S.map (fun s => (s.2.dataId >>> 18, (ck, S.map Prod.fst))), ?_, ?_⟩
    · exact List.mem_map.mpr ⟨(ck, S), hcs, rfl⟩
    · exact List.mem_map.mpr ⟨se, hse, rfl⟩
  have hnd' : ((flip_pairs dd).reverse.map Prod.fst).Nodup := by
    rw [List.map_reverse, flip_pairs_keys]
    exact List.nodup_reverse.mpr hnd
  rw [find?_key_of_nodup _ _ _ hnd' (List.mem_reverse.mpr hmem)]
  rfl

/-- Witness for the amended C7 on `aliasHeader` at the first instance of
`ClassA`. -/
theorem flip_full_list_witness :
    (((leaf_entries aliasHeader).map leaf_id).Nodup ∧
      ("ClassA", [("s1", (⟨1 <<< 18, "D1"⟩ : DataDescEntry)),
        ("s2", ⟨2 <<< 18, "D2"⟩)]) ∈ aliasHeader ∧
      ("s1", (⟨1 <<< 18, "D1"⟩ : DataDescEntry)) ∈
        [("s1", (⟨1 <<< 18, "D1"⟩ : DataDescEntry)), ("s2", ⟨2 <<< 18, "D2"⟩)]) ∧
    dictLookup (flip_data_ids aliasHeader)
        (("s1", (⟨1 <<< 18, "D1"⟩ : DataDescEntry)).2.dataId >>> 18) =
      some ("ClassA",
        ([("s1", (⟨1 <<< 18, "D1"⟩ : DataDescEntry)),
          ("s2", ⟨2 <<< 18, "D2"⟩)]).map Prod.fst) :=
  ⟨⟨by decide, by decide, by decide⟩,
    flip_full_list aliasHeader "ClassA"
      [("s1", ⟨1 <<< 18, "D1"⟩), ("s2", ⟨2 <<< 18, "D2"⟩)]
      ("s1", ⟨1 <<< 18, "D1"⟩) (by decide) (by decide) (by decide)⟩

/-- A value stored in a card's dict: the fields used by the code are the
string `"Class Name"` and the integer crate number written into `"Crate"`. -/
inductive CardVal where
  | str : String → CardVal
  | nat : Nat → CardVal
deriving DecidableEq, Repr

/-- A card record: a Python dict from field name to value. -/
abbrev Card := List (String × CardVal)

/-- One element of `header_dict["ObjectInfo"]["Crates"]`: its
`"CrateNumber"` and its `"Cards"` list. -/
structure Crate where
  crateNumber : Nat
  cards : List Card
deriving DecidableEq, Repr

/-- Lines 158-161 for the cards of one crate: `card["Class Name"]` raises
`KeyError` when absent; when it equals the requested class name the code
executes `card["Crate"] = crate["CrateNumber"]` — an in-place update of the
card dict that lives inside the header — and appends that same (mutated)
card object to the result.  Returns the selected cards and the post-state
of the crate's card list. -/
def process_cards (cn : Nat) (orca_class_name : String) :
    List Card → Except PyErr (List Card × List Card)
  | [] => .ok ([], [])
  | card :: rest =>
    match dictLookup card "Class Name" with
    | none => .error (.keyError "Class Name")
    | some v =>
      match process_cards cn orca_class_name rest with
      | .error e => .error e
      | .ok (sel, upd) =>
        if v = CardVal.str orca_class_name then
          let card2 := dictInsert card "Crate" (.nat cn)
          .ok (card2 :: sel, card2 :: upd)
        else
          .ok (sel, card :: upd)

/-- Lines 148-165, `get_object_info(header_dict, orca_class_name)` run over
`header_dict["ObjectInfo"]["Crates"]`: walk crates, then each crate's
cards, in order; collect the matching (and mutated) cards.  The post-state
of the crate tree is returned alongside the selected list to model the
in-place mutation of the header.  (The empty-result warning on line 164 is
a print, not an error.) -/
def get_object_info : List Crate → String → Except PyErr (List Card × List Crate)
  | [], _ => .ok ([], [])
  | crate :: rest, orca_class_name =>
    match process_cards crate.crateNumber orca_class_name crate.cards with
    | .error e => .error e
    | .ok (sel, updCards) =>
      match get_object_info rest orca_class_name with
      | .error e => .error e
      | .ok (selRest, updRest) =>
        .ok (sel ++ selRest, ⟨crate.crateNumber, updCards⟩ :: updRest)

/-- The stamping step `card["Crate"] = crate["CrateNumber"]` (line 160). -/
def stamp_card (cn : Nat) (card : Card) : Card :=
  dictInsert card "Crate" (CardVal.nat cn)

/-- The selection test `card["Class Name"] == orca_class_name` (line 159),
assuming the key is present. -/
def card_matches (orca_class_name : String) (card : Card) : Bool :=
  match dictLookup card "Class Name" with
  | some v => decide (v = CardVal.str orca_class_name)
  | none => false

/-- The list `get_object_info` returns: matching cards in crate-then-card
encounter order, each stamped with its owning crate number. -/
def selected_cards (crates : List Crate) (orca_class_name : String) : List Card :=
  (crates.map (fun cr =>
    (cr.cards.filter (card_matches orca_class_name)).map (stamp_card cr.crateNumber))).flatten

/-- The post-state of the header's crate tree: every matching card has been
stamped in place. -/
def stamped_crates (crates : List Crate) (orca_class_name : String) : List Crate :=
  crates.map (fun cr =>
    ⟨cr.crateNumber, cr.cards.map (fun c =>
      if card_matches orca_class_name c then stamp_card cr.crateNumber c else c)⟩)

theorem process_cards_ok (cn : Nat) (orca_class_name : String) (cards : List Card)
    (h : ∀ c ∈ cards, hasKey c "Class Name" = true) :
    process_cards cn orca_class_name cards =
      .ok ((cards.filter (card_matches orca_class_name)).map (stamp_card cn),
           cards.map (fun c =>
             if card_matches orca_class_name c then stamp_card cn c else c)) := by
  induction cards with
  | nil => rfl
  | cons card rest ih =>
    have hc : hasKey card "Class Name" = true := h card (List.mem_cons_self card rest)
    have hl : (dictLookup card "Class Name").isSome = true := by
      rw [← hasKey_eq_isSome]
      exact hc
    obtain ⟨v, hv⟩ := Option.isSome_iff_exists.mp hl
    have hcm : card_matches orca_class_name card = decide (v = CardVal.str orca_class_name) := by
      unfold card_matches
      rw [hv]
    unfold process_cards
    rw [ih (fun c hc2 => h c (List.mem_cons_of_mem _ hc2))]
    simp only [hv]
    by_cases hm : v = CardVal.str orca_class_name
    · rw [if_pos hm, List.filter_cons, List.map_cons]
      simp [hcm, hm, stamp_card]
    · rw [if_neg hm, List.filter_cons, List.map_cons]
      simp [hcm, hm]

/-- C8 as amended: `get_object_info` returns the matching cards in
crate-then-card encounter order, each stamped with its owning crate number
— but it stamps in place: on return the header's crate tree itself has
every matching card updated with a `"Crate"` entry, so the parsed header is
not left unchanged. -/
theorem get_object_info_mutates (crates : List Crate) (orca_class_name : String)
    (hkeys : ∀ cr ∈ crates, ∀ c ∈ cr.cards, hasKey c "Class Name" = true) :
    get_object_info crates orca_class_name =
      .ok (selected_cards crates orca_class_name,
           stamped_crates crates orca_class_name) := by
  induction crates with
  | nil => rfl
  | cons crate rest ih =>
    unfold get_object_info
    rw [process_cards_ok _ _ _ (hkeys crate (List.mem_cons_self crate rest)),
      ih (fun cr h2 => hkeys cr (List.mem_cons_of_mem _ h2))]
    rfl

/-- A header crate tree holding one card that lacks a `"Crate"` entry. -/
def crateX : Crate := ⟨1, [[("Class Name", CardVal.str "X")]]⟩

/-- Counterexample to C8: running `get_object_info` over `[crateX]` returns
the matched card stamped with `"Crate" = 1`, but the header's own crate
tree afterwards also carries the stamp — the card dict inside the header
was mutated in place, so the header does not stay unchanged. -/
theorem header_mutation_cex :
    get_object_info [crateX] "X" =
      .ok ([[("Class Name", CardVal.str "X"), ("Crate", CardVal.nat 1)]],
        [⟨1, [[("Class Name", CardVal.str "X"), ("Crate", CardVal.nat 1)]]⟩]) ∧
    [(⟨1, [[("Class Name", CardVal.str "X"), ("Crate", CardVal.nat 1)]]⟩ : Crate)] ≠
      [crateX] :=
  ⟨rfl, by decide⟩

/-- Witness for the amended C8 on `[crateX]`. -/
theorem get_object_info_mutates_witness :
    (∀ cr ∈ [crateX], ∀ c ∈ cr.cards, hasKey c "Class Name" = true) ∧
    get_object_info [crateX] "X" =
      .ok (selected_cards [crateX] "X", stamped_crates [crateX] "X") :=
  ⟨by decide, get_object_info_mutates [crateX] "X" (by decide)⟩

/-- One entry of `header_dict["ObjectInfo"]["DataChain"]`: a dict whose
values are themselves dicts from field name to integer — the shape the
code reads through `d["Run Control"]["RunNumber"]`. -/
abbrev RunRecord := List (String × List (String × Int))

/-- Lines 88-93, `get_run_number(header_dict)`: iterate the DataChain
entries in order; at the first `d` with `"Run Control" in d`, return
`d["Run Control"]["RunNumber"]` (a missing `"RunNumber"` there would be an
uncaught `KeyError`); when the loop finishes without such an entry, raise
`ValueError("No run number found in header!")`. -/
def get_run_number : List RunRecord → Except PyErr Int
  | [] => .error (.valueError "No run number found in header!")
  | d :: rest =>
    if hasKey d "Run Control" then
      match dictLookup d "Run Control" with
      | some rc =>
        match dictLookup rc "RunNumber" with
        | some v => .ok v
        | none => .error (.keyError "RunNumber")
      | none => .error (.keyError "Run Control")
    else get_run_number rest

/-- C9: `get_run_number` returns the `"RunNumber"` field of the first
DataChain entry containing the `"Run Control"` key, skipping entries that
lack it; and it raises `ValueError("No run number found in header!")`
exactly when no entry of the chain (including the empty chain) contains
that key. -/
theorem run_number_first_entry (pre rest : List RunRecord) (d : RunRecord)
    (rc : List (String × Int)) (v : Int) (chain : List RunRecord)
    (hpre : ∀ e ∈ pre, hasKey e "Run Control" = false)
    (hd : dictLookup d "Run Control" = some rc)
    (hv : dictLookup rc "RunNumber" = some v) :
    get_run_number (pre ++ d :: rest) = .ok v ∧
    (get_run_number chain = .error (.valueError "No run number found in header!") ↔
      chain.all (fun e => !hasKey e "Run Control") = true) := by
  constructor
  · induction pre with
    | nil =>
      have hk : hasKey d "Run Control" = true := by
        rw [hasKey_eq_isSome, hd]
        rfl
      rw [List.nil_append]
      unfold get_run_number
      rw [if_pos hk]
      simp only [hd, hv]
    | cons e pre' ih =>
      rw [List.cons_append]
      unfold get_run_number
      rw [if_neg (by simp [hpre e (List.mem_cons_self e pre')])]
      exact ih (fun e2 he2 => hpre e2 (List.mem_cons_of_mem _ he2))
  · induction chain with
    | nil => simp [get_run_number]
    | cons d' rest' ih =>
      by_cases hk : hasKey d' "Run Control"
      · have hls : (dictLookup d' "Run Control").isSome = true := by
          rw [← hasKey_eq_isSome]
          exact hk
        obtain ⟨rc', hrc'⟩ := Option.isSome_iff_exists.mp hls
        constructor
        · intro hh
          exfalso
          unfold get_run_number at hh
          rw [if_pos hk] at hh
          simp only [hrc'] at hh
          cases hnum : dictLookup rc' "RunNumber" with
          | some v' => rw [hnum] at hh; cases hh
          | none => rw [hnum] at hh; cases hh
        · intro hh
          exfalso
          simp only [List.all_cons, hk, Bool.not_true, Bool.false_and] at hh
          cases hh
      · unfold get_run_number
        rw [if_neg hk]
        have hkf : hasKey d' "Run Control" = false := by
          rcases Bool.eq_false_or_eq_true (hasKey d' "Run Control") with h | h
          · exact absurd h hk
          · exact h
        simp only [List.all_cons, hkf, Bool.not_false, Bool.true_and]
        exact ih

/-- Witness for C9: a chain whose first entry lacks the run-control key
and whose second carries run number 42, plus the empty chain for the
failure direction. -/
theorem run_number_first_entry_witness :
    ((∀ e ∈ [[("Other", ([] : List (String × Int)))]], hasKey e "Run Control" = false) ∧
      dictLookup [("Run Control", [("RunNumber", (42 : Int))])] "Run Control" =
        some [("RunNumber", (42 : Int))] ∧
      dictLookup [("RunNumber", (42 : Int))] "RunNumber" = some 42) ∧
    (get_run_number ([[("Other", ([] : List (String × Int)))]] ++
        [("Run Control", [("RunNumber", (42 : Int))])] :: []) = .ok 42 ∧
      (get_run_number [] = .error (.valueError "No run number found in header!") ↔
        ([] : List RunRecord).all (fun e => !hasKey e "Run Control") = true)) :=
  ⟨⟨by decide, by decide, by decide⟩,
    run_number_first_entry [[("Other", [])]] [] [("Run Control", [("RunNumber", 42)])]
      [("RunNumber", 42)] 42 [] (by decide) (by decide) (by decide)⟩
